import Mathlib

/-!
# mem-fam-picturefiles: field lookup and picture-path rewrite

A shallow embedding of `src/pds-pxtools/mem-fam-picturefiles/main.c`
(`find_field`, `update_db`) together with the libc routines it calls.

Bytes are natural numbers.  A string the code only reads (a file name, a
field name) is given by its bytes; a zero byte, if one occurs, ends the string
as it does in C.  The buffer `value.str.val` that the code writes into is a
list of the bytes of the allocated region, and reading or writing outside it
is undefined behaviour, rendered as `none`.
-/

namespace PictureFiles

/-! ## libc -/

/-- The C-locale `tolower` on a byte: `A`..`Z` map to `a`..`z`. -/
def tolower (c : Nat) : Nat := if 65 ≤ c ∧ c ≤ 90 then c + 32 else c

/-- The C string a byte list denotes: its bytes before the first zero byte. -/
def cstr (s : List Nat) : List Nat := s.takeWhile (fun b => b != 0)

/-- The C string held in a writable buffer; undefined when the buffer has no
zero byte, since the read then runs off the allocated region. -/
def cstr? (buf : List Nat) : Option (List Nat) :=
  if 0 ∈ buf then some (cstr buf) else none

/-- The function `strlen` on a buffer. -/
def strlen (buf : List Nat) : Option Nat := (cstr? buf).map List.length

/-- The comparison loop of `strcasecmp` on two strings without zero bytes:
zero when they agree after lower-casing, otherwise the difference of the first
pair of lower-cased bytes that differ (the end of a string reads as 0). -/
def strcasecmp_loop : List Nat → List Nat → Int
  | [], [] => 0
  | [], b :: _ => 0 - (tolower b : Int)
  | a :: _, [] => (tolower a : Int)
  | a :: as, b :: bs =>
      if tolower a = tolower b then strcasecmp_loop as bs
      else (tolower a : Int) - (tolower b : Int)

/-- The function `strcasecmp`. -/
def strcasecmp (s1 s2 : List Nat) : Int := strcasecmp_loop (cstr s1) (cstr s2)

/-- The function `strrchr` on a string without zero bytes, for a non-zero `c`:
the pointer to the last occurrence of `c`, given as the part of the string
that starts there, or `none` for the NULL pointer. -/
def strrchr : List Nat → Nat → Option (List Nat)
  | [], _ => none
  | b :: bs, c =>
      match strrchr bs c with
      | some p => some p
      | none => if b = c then some (b :: bs) else none

/-- The call `memset(buf, c, n)`: undefined when `n` exceeds the buffer. -/
def memset (buf : List Nat) (c n : Nat) : Option (List Nat) :=
  if n ≤ buf.length then some (List.replicate n c ++ buf.drop n) else none

/-- The call `snprintf(buf, n, fmt, ...)` where `t` is the text the format
expands to: nothing is written when `n = 0`; otherwise the first `n - 1` bytes
of `t` and a zero byte are written, which is undefined when they do not fit
the buffer. -/
def snprintf (buf : List Nat) (n : Nat) (t : List Nat) : Option (List Nat) :=
  if n = 0 then some buf
  else
    let out := t.take (n - 1) ++ [0]
    if out.length ≤ buf.length then some (out ++ buf.drop out.length) else none

/-- The bytes of an ASCII string literal. -/
def ascii (s : String) : List Nat := s.toList.map Char.toNat

/-! ## pxlib data, as far as `main.c` touches it -/

/-- The members of `pxfield_t` that the code reads.  The `int` member `px_flen`
is filled by pxlib from an unsigned byte of the file header; it is never
negative. -/
structure pxfield_t where
  px_fname : List Nat
  px_flen : Nat
deriving DecidableEq, Repr

/-- The member `value.str` of `pxval_t`: `val` is NULL (`none`) or the buffer
pxlib allocated for the field, `len` the stored length. -/
structure pxval_t where
  val : Option (List Nat)
  len : Nat
deriving DecidableEq, Repr

/-- An open table: its field array and its records, each an array of values
as `PX_retrieve_record` returns it and `PX_update_record` stores it. -/
structure pxdoc_t where
  px_fields : List pxfield_t
  records : List (List pxval_t)
deriving DecidableEq, Repr

/-! ## `find_field` (main.c lines 11-28) -/

/-- The three out-parameters `*field`, `*index`, `*offset` of `find_field`.
The pointer `*field` is given by the descriptor it points to, `none` being
NULL. -/
structure FieldOut where
  field : Option pxfield_t
  index : Int
  offset : Int
deriving DecidableEq, Repr

/-- The value an `int` holds after an arithmetic result `x`: overflow is taken
as two's-complement wrap-around to the range `-2^31 .. 2^31 - 1`. -/
def int_wrap (x : Int) : Int := (x + 2147483648) % 4294967296 - 2147483648

/-- The `for` loop of `find_field` over the fields not yet visited, with the
current values of the `int` variables `fi` and `fo`; `out` is what the
out-parameters hold on entry, and it is what they still hold when the loop runs
off the end.  `++fi` and `fo += f->px_flen` are `int` arithmetic. -/
def find_field_loop (fname : List Nat) :
    List pxfield_t → Int → Int → FieldOut → FieldOut
  | [], _, _, out => out
  | f :: rest, fi, fo, out =>
      if strcasecmp f.px_fname fname = 0 then
        { field := some f, index := fi, offset := fo }
      else find_field_loop fname rest (int_wrap (fi + 1)) (int_wrap (fo + (f.px_flen : Int))) out

/-- The function `find_field`. -/
def find_field (pxdoc : pxdoc_t) (fname : List Nat) (out : FieldOut) : FieldOut :=
  find_field_loop fname pxdoc.px_fields 0 0 out

/-! ## `update_db` (main.c lines 31-110) -/

/-- The text `Q:\newpics\` that the format string of line 96 puts before the
basename. -/
def newpics : List Nat := ascii "Q:\\newpics\\"

/-- The argument `flen-1` of line 96 as `snprintf` receives it in its `size_t`
parameter: the `int` value -1 converts to `SIZE_MAX` (64-bit `size_t`). -/
def size_arg (flen : Nat) : Nat := if flen = 0 then 2 ^ 64 - 1 else flen - 1

/-- The element `a[i]` of a C array for an `int` index; undefined outside the
array. -/
def idx {α : Type} (a : List α) (i : Int) : Option α :=
  if 0 ≤ i then a[i.toNat]? else none

/-- Lines 92-99 without the lookup of `flen`: the new content of the buffer
`picturefile` and the value of `strlen(picturefile)` at line 99.  A NULL result
of `strrchr` makes `strdup(ptr + 1)` undefined. -/
def update_db_rewrite (picturefile : List Nat) (flen : Nat) : Option (List Nat × Nat) := do
  let s ← cstr? picturefile
  let ptr ← strrchr s 92
  let basename := ptr.tail
  let buf1 ← memset picturefile 0 flen
  let buf2 ← snprintf buf1 (size_arg flen) (newpics ++ basename)
  let len ← strlen buf2
  pure (buf2, len)

/-- What lines 87-105 leave behind for one record: the member `value.str` of
`pxval[fi_picturefile]` and whether `PX_update_record` was called. -/
structure Outcome where
  value : pxval_t
  updated : Bool
deriving DecidableEq, Repr

/-- Lines 87-105 for the value `v = pxval[fi_picturefile]->value.str`: the
NULL test, the `printf` of line 88 (which reads the string), the test of line
91 with its short-circuit `&&`, and the rewrite of lines 92-100. -/
def update_db_picturefile (fields : List pxfield_t) (fi_picturefile : Int) (v : pxval_t) :
    Option Outcome :=
  match v.val with
  | none => some { value := v, updated := false }
  | some picturefile => do
      let _ ← cstr? picturefile
      let c0 ← picturefile[0]?
      if tolower c0 = 122 then do
        let c1 ← picturefile[1]?
        if c1 = 58 then do
          let f ← idx fields fi_picturefile
          let r ← update_db_rewrite picturefile f.px_flen
          pure { value := { val := some r.1, len := r.2 }, updated := true }
        else pure { value := v, updated := false }
      else pure { value := v, updated := false }

/-- Calls into pxlib that touch the table, and the lines written to stderr and
stdout, in program order. -/
inductive Event where
  | stderr_not_recognized (dbname : List Nat)
  | PX_open_file (dbname : List Nat)
  | PX_set_blob_file (blobname : List Nat)
  | stderr_opened (dbname : List Nat)
  | PX_retrieve_record (r : Nat)
  | printf_rec (r : Nat) (name : Option (List Nat)) (picturefile : List Nat)
  | PX_update_record (r : Nat) (pxval : List pxval_t)
  | printf_updated (picturefile : List Nat)
  | PX_close
deriving DecidableEq, Repr

/-- The table and the events so far. -/
structure World where
  doc : pxdoc_t
  events : List Event
deriving DecidableEq, Repr

/-- The string `printf` prints for a `%s` argument: glibc prints `(null)` for
a NULL pointer, given here as `none`. -/
def printf_arg (p : Option (List Nat)) : Option (Option (List Nat)) :=
  match p with
  | none => some none
  | some buf => (cstr? buf).map some

/-- The lines 88 writes, when `picturefile` is not NULL. -/
def update_db_line88 (r : Nat) (vname vpic : pxval_t) : Option (List Event) :=
  match vpic.val with
  | none => some []
  | some picturefile => do
      let name ← printf_arg vname.val
      let s ← cstr? picturefile
      pure [Event.printf_rec r name s]

/-- The body of the record loop, lines 78-105, for record number `r`. -/
def update_db_record (fi_name fi_picturefile : Int) (r : Nat) (w : World) : Option World := do
  let pxval ← w.doc.records[r]?
  let vname ← idx pxval fi_name
  let vpic ← idx pxval fi_picturefile
  let line88 ← update_db_line88 r vname vpic
  let o ← update_db_picturefile w.doc.px_fields fi_picturefile vpic
  if o.updated then
    let pxval2 := pxval.set fi_picturefile.toNat o.value
    pure { doc := { w.doc with records := w.doc.records.set r pxval2 },
           events := w.events ++ (Event.PX_retrieve_record r :: line88 ++
             [Event.PX_update_record r pxval2,
              Event.printf_updated (cstr (o.value.val.getD []))]) }
  else
    pure { doc := w.doc, events := w.events ++ (Event.PX_retrieve_record r :: line88) }

/-- The record loop of lines 77-106 with `n` iterations left, starting at
record `r`; `none` when an iteration is undefined. -/
def update_db_loop (fi_name fi_picturefile : Int) : Nat → Nat → World → Option World
  | 0, _, w => some w
  | n + 1, r, w =>
      match update_db_record fi_name fi_picturefile r w with
      | none => none
      | some w2 => update_db_loop fi_name fi_picturefile n (r + 1) w2

/-- How a call of `update_db` ends. -/
inductive Exit where
  | returned
  | exit_1
  | assert_failed
  | undefined
deriving DecidableEq, Repr

/-- The table, the events and the way a call of `update_db` ended. -/
structure Run where
  doc : pxdoc_t
  events : List Event
  exit : Exit
deriving DecidableEq, Repr

/-- The function `update_db`.  Besides `dbname` it depends on what the code
does not control: `table`, the table `PX_open_file` loads; `stat`, whether
`stat` finds a file of the given name; and `f_name`, `f_picturefile`, the
indeterminate initial content of the locals of lines 58-60, which are not
initialised before their addresses go to `find_field`.  A NULL result of
`strrchr` at line 36 makes the `strcasecmp` of line 37 undefined. -/
def update_db (dbname : List Nat) (table : pxdoc_t) (stat : List Nat → Bool)
    (f_name f_picturefile : FieldOut) : Run :=
  match strrchr (cstr dbname) 46 with
  | none => { doc := table, events := [], exit := Exit.undefined }
  | some ptr =>
    if strcasecmp ptr (ascii ".DB") ≠ 0 then
      { doc := table, events := [Event.stderr_not_recognized dbname], exit := Exit.exit_1 }
    else
      let blobname := (cstr dbname).set ((cstr dbname).length - 2) 77
      let opened := Event.PX_open_file dbname ::
        (if stat blobname then [Event.PX_set_blob_file blobname] else []) ++
        [Event.stderr_opened dbname]
      let n := find_field table (ascii "name") f_name
      let p := find_field table (ascii "picturefile") f_picturefile
      if n.field = none ∨ p.field = none then
        { doc := table, events := opened, exit := Exit.assert_failed }
      else
        match update_db_loop n.index p.index table.records.length 0
            { doc := table, events := opened } with
        | none => { doc := table, events := opened, exit := Exit.undefined }
        | some w => { doc := w.doc, events := w.events ++ [Event.PX_close], exit := Exit.returned }

/-! ## Words of the specification -/

/-- The recognition test in words: the first character is `z` or `Z` and the
second is `:`. -/
def eligible (v : List Nat) : Prop :=
  (v[0]? = some 122 ∨ v[0]? = some 90) ∧ v[1]? = some 58

instance (v : List Nat) : Decidable (eligible v) := by
  unfold eligible; infer_instance

/-- Two names are equal ignoring letter case. -/
def eqIgnoreCase (a b : List Nat) : Prop :=
  (cstr a).map tolower = (cstr b).map tolower

instance (a b : List Nat) : Decidable (eqIgnoreCase a b) := by
  unfold eqIgnoreCase; infer_instance

/-! ## Tables of the scenarios -/

/-- The schema `[name: char(20), picturefile: char(30)]`. -/
def scenario_fields : List pxfield_t :=
  [{ px_fname := ascii "name", px_flen := 20 },
   { px_fname := ascii "picturefile", px_flen := 30 }]

/-- The buffer pxlib allocates for a field of `flen` bytes holding the text
`v`: the `flen` bytes of the field, zero padded, and a terminating zero. -/
def field_buffer (v : List Nat) (flen : Nat) : List Nat :=
  v ++ 0 :: List.replicate (flen - v.length) 0

/-- A table with the schema of the scenarios and two records; the path of the
first record has the drive `Z:` and no backslash. -/
def table_no_backslash : pxdoc_t :=
  { px_fields := scenario_fields,
    records :=
      [[{ val := some (field_buffer (ascii "John") 20), len := 4 },
        { val := some (field_buffer (ascii "Z:john.jpg") 30), len := 10 }],
       [{ val := some (field_buffer (ascii "Mary") 20), len := 4 },
        { val := some (field_buffer (ascii "Z:\\pics\\mary.jpg") 30), len := 16 }]] }

/-- A table whose schema has a field `name` and no field `picturefile`, with
one record. -/
def table_no_picturefile : pxdoc_t :=
  { px_fields := [{ px_fname := ascii "name", px_flen := 20 }],
    records := [[{ val := some (field_buffer (ascii "Z:\\bob") 20), len := 6 }]] }

/-- A table whose field `picturefile` has 10 bytes, with one record. -/
def table_short_field : pxdoc_t :=
  { px_fields :=
      [{ px_fname := ascii "name", px_flen := 20 },
       { px_fname := ascii "picturefile", px_flen := 10 }],
    records :=
      [[{ val := some (field_buffer (ascii "John") 20), len := 4 },
        { val := some (field_buffer (ascii "Z:\\j.jpg") 10), len := 8 }]] }

/-- A possible content of the uninitialised locals `f_picturefile`,
`fi_picturefile`, `offset_picturefile`: a non-NULL pointer and zeros. -/
def stale_locals : FieldOut :=
  { field := some { px_fname := ascii "name", px_flen := 20 }, index := 0, offset := 0 }

/-! ## Facts about the string routines -/

theorem tolower_eq_zero (c : Nat) : tolower c = 0 ↔ c = 0 := by
  unfold tolower
  split <;> omega

theorem tolower_eq_z (c : Nat) : tolower c = 122 ↔ (c = 122 ∨ c = 90) := by
  unfold tolower
  split <;> omega

theorem zero_not_mem_cstr (s : List Nat) : 0 ∉ cstr s := by
  intro h
  have := List.mem_takeWhile_imp h
  simp at this

theorem cstr_of_not_mem (s : List Nat) (h : 0 ∉ s) : cstr s = s := by
  unfold cstr
  rw [List.takeWhile_eq_self_iff]
  intro x hx
  have : x ≠ 0 := fun e => h (e ▸ hx)
  simpa using this

theorem cstr_append_zero (v pad : List Nat) (h : 0 ∉ v) : cstr (v ++ 0 :: pad) = v := by
  induction v with
  | nil => simp [cstr]
  | cons a v ih =>
    have ha : a ≠ 0 := fun e => h (by simp [e])
    have hv : 0 ∉ v := fun e => h (by simp [e])
    have := ih hv
    simp only [cstr] at this ⊢
    simp only [List.cons_append, List.takeWhile_cons, bne_iff_ne, ne_eq, ha, not_false_eq_true,
      decide_True, if_true, this]

theorem strcasecmp_loop_eq_zero (a b : List Nat) (ha : 0 ∉ a) (hb : 0 ∉ b) :
    strcasecmp_loop a b = 0 ↔ a.map tolower = b.map tolower := by
  induction a generalizing b with
  | nil =>
    cases b with
    | nil => simp [strcasecmp_loop]
    | cons y ys =>
      have hy : y ≠ 0 := fun e => hb (by simp [e])
      have : tolower y ≠ 0 := fun e => hy ((tolower_eq_zero y).1 e)
      simp only [strcasecmp_loop, List.map_nil, List.map_cons]
      constructor
      · intro h; omega
      · intro h; cases h
  | cons x xs ih =>
    have hx : x ≠ 0 := fun e => ha (by simp [e])
    have hxs : 0 ∉ xs := fun e => ha (by simp [e])
    cases b with
    | nil =>
      have : tolower x ≠ 0 := fun e => hx ((tolower_eq_zero x).1 e)
      simp only [strcasecmp_loop, List.map_nil, List.map_cons]
      constructor
      · intro h; omega
      · intro h; cases h
    | cons y ys =>
      have hys : 0 ∉ ys := fun e => hb (by simp [e])
      simp only [strcasecmp_loop, List.map_cons, List.cons.injEq]
      by_cases hxy : tolower x = tolower y
      · simp only [hxy, if_true, true_and]
        exact ih ys hxs hys
      · simp only [hxy, if_false, false_and, iff_false]
        omega

theorem strcasecmp_eq_zero_iff (a b : List Nat) :
    strcasecmp a b = 0 ↔ eqIgnoreCase a b :=
  strcasecmp_loop_eq_zero _ _ (zero_not_mem_cstr a) (zero_not_mem_cstr b)

theorem find_field_loop_none (fname : List Nat) (fields : List pxfield_t)
    (fi fo : Int) (out : FieldOut)
    (h : ∀ f ∈ fields, ¬ eqIgnoreCase f.px_fname fname) :
    find_field_loop fname fields fi fo out = out := by
  induction fields generalizing fi fo with
  | nil => rfl
  | cons f rest ih =>
    have hf : ¬ strcasecmp f.px_fname fname = 0 := fun e =>
      h f (by simp) ((strcasecmp_eq_zero_iff _ _).1 e)
    simp only [find_field_loop, hf, if_false]
    exact ih _ _ (fun g hg => h g (by simp [hg]))

/-- A field list that has a field of the requested name has a first one. -/
theorem exists_first_match (fname : List Nat) (fields : List pxfield_t)
    (h : ∃ f ∈ fields, eqIgnoreCase f.px_fname fname) :
    ∃ (i : Nat) (f : pxfield_t), fields[i]? = some f ∧ eqIgnoreCase f.px_fname fname ∧
      ∀ (j : Nat) (g : pxfield_t), j < i → fields[j]? = some g →
        ¬ eqIgnoreCase g.px_fname fname := by
  induction fields with
  | nil => obtain ⟨f, hf, _⟩ := h; cases hf
  | cons f rest ih =>
    by_cases hm : eqIgnoreCase f.px_fname fname
    · exact ⟨0, f, by simp, hm, fun j g hj => by omega⟩
    · have hrest : ∃ g ∈ rest, eqIgnoreCase g.px_fname fname := by
        obtain ⟨g, hg, hgm⟩ := h
        rcases List.mem_cons.1 hg with e | e
        · exact absurd (e ▸ hgm) hm
        · exact ⟨g, e, hgm⟩
      obtain ⟨i, g, hig, hgm, hfirst⟩ := ih hrest
      refine ⟨i + 1, g, by simpa using hig, hgm, ?_⟩
      intro j k hj hk
      cases j with
      | zero =>
        have : k = f := by simpa using hk.symm
        exact this ▸ hm
      | succ j => exact hfirst j k (by omega) (by simpa using hk)

theorem strrchr_none (v : List Nat) (c : Nat) (h : c ∉ v) : strrchr v c = none := by
  induction v with
  | nil => rfl
  | cons a v ih =>
    have hv : c ∉ v := fun e => h (by simp [e])
    have ha : a ≠ c := fun e => h (by simp [e])
    simp [strrchr, ih hv, ha]

theorem strrchr_last (pre b : List Nat) (c : Nat) (h : c ∉ b) :
    strrchr (pre ++ c :: b) c = some (c :: b) := by
  induction pre with
  | nil => simp [strrchr, strrchr_none b c h]
  | cons a pre ih => simp [strrchr, ih]

theorem exists_last_split (v : List Nat) (c : Nat) (h : c ∈ v) :
    ∃ pre b, v = pre ++ c :: b ∧ c ∉ b := by
  induction v with
  | nil => cases h
  | cons a v ih =>
    by_cases hv : c ∈ v
    · obtain ⟨pre, b, e, hb⟩ := ih hv
      exact ⟨a :: pre, b, by simp [e], hb⟩
    · have ha : c = a := by
        rcases List.mem_cons.1 h with e | e
        · exact e
        · exact absurd e hv
      exact ⟨[], v, by simp [ha], hv⟩

theorem cstr?_append_zero (v pad : List Nat) (h : 0 ∉ v) :
    cstr? (v ++ 0 :: pad) = some v := by
  unfold cstr?
  rw [if_pos (by simp), cstr_append_zero v pad h]

theorem strlen_append_zero (v pad : List Nat) (h : 0 ∉ v) :
    strlen (v ++ 0 :: pad) = some v.length := by
  simp [strlen, cstr?_append_zero v pad h]

theorem newpics_eq : newpics = [81, 58, 92, 110, 101, 119, 112, 105, 99, 115, 92] := by
  decide

theorem zero_not_mem_newpics_append (b : List Nat) (h : 0 ∉ b) : 0 ∉ newpics ++ b := by
  rw [newpics_eq]
  simp [h]

theorem zero_not_mem_take (t : List Nat) (k : Nat) (h : 0 ∉ t) : 0 ∉ t.take k :=
  fun e => h (List.mem_of_mem_take e)

/-- The buffer after lines 95-96 and the length of line 99, for a value
`pre ++ '\\' :: b` whose basename `b` has no backslash, in a buffer that holds
the `L` bytes of the field. -/
theorem update_db_rewrite_eq (pre b pad : List Nat) (L : Nat)
    (h0 : 0 ∉ pre ++ 92 :: b) (hb : 92 ∉ b) (h1 : 1 ≤ L)
    (hL : L ≤ ((pre ++ 92 :: b) ++ 0 :: pad).length) :
    update_db_rewrite ((pre ++ 92 :: b) ++ 0 :: pad) L =
      some ((newpics ++ b).take (L - 2) ++
              List.replicate (L - min (L - 2) (newpics ++ b).length) 0 ++
              ((pre ++ 92 :: b) ++ 0 :: pad).drop L,
            min (L - 2) (newpics ++ b).length) := by
  have hb0 : 0 ∉ b := fun e => h0 (by simp [e])
  have ht : 0 ∉ (newpics ++ b).take (L - 2) :=
    zero_not_mem_take _ _ (zero_not_mem_newpics_append b hb0)
  have hlen : ((newpics ++ b).take (L - 2)).length = min (L - 2) (newpics ++ b).length :=
    List.length_take _ _
  have hrep : List.replicate (L - min (L - 2) (newpics ++ b).length) 0 =
      0 :: List.replicate (L - 1 - min (L - 2) (newpics ++ b).length) 0 := by
    have : L - min (L - 2) (newpics ++ b).length =
        (L - 1 - min (L - 2) (newpics ++ b).length) + 1 := by omega
    rw [this, List.replicate_succ]
  have hfin : strlen ((newpics ++ b).take (L - 2) ++
      List.replicate (L - min (L - 2) (newpics ++ b).length) 0 ++
      ((pre ++ 92 :: b) ++ 0 :: pad).drop L) = some (min (L - 2) (newpics ++ b).length) := by
    rw [hrep, List.append_assoc, List.cons_append, strlen_append_zero _ _ ht, hlen]
  unfold update_db_rewrite
  rw [cstr?_append_zero _ pad h0, Option.bind_eq_bind, Option.some_bind,
    strrchr_last pre b 92 hb, Option.some_bind]
  simp only [List.tail_cons, memset, if_pos hL, Option.bind_eq_bind, Option.some_bind]
  by_cases hL1 : L = 1
  · subst hL1
    simp only [size_arg, snprintf, if_true, Option.some_bind, one_ne_zero, if_false,
      Nat.sub_self]
    rw [show (1 : Nat) - 2 = 0 from rfl] at hfin ⊢
    simp only [List.take_zero, List.nil_append, Nat.zero_min, Nat.sub_zero] at hfin ⊢
    rw [hfin]
    rfl
  · have hn : size_arg L = L - 1 := by
      unfold size_arg
      rw [if_neg (by omega)]
    have hn0 : L - 1 ≠ 0 := by omega
    have hfit : ((newpics ++ b).take (L - 1 - 1) ++ [0]).length ≤
        (List.replicate L 0 ++ ((pre ++ 92 :: b) ++ 0 :: pad).drop L).length := by
      simp only [List.length_append, List.length_take, List.length_replicate,
        List.length_drop, List.length_cons, List.length_nil] at hL ⊢
      omega
    have hbuf : (newpics ++ b).take (L - 1 - 1) ++ [0] ++
        (List.replicate L 0 ++ ((pre ++ 92 :: b) ++ 0 :: pad).drop L).drop
          ((newpics ++ b).take (L - 1 - 1) ++ [0]).length =
        (newpics ++ b).take (L - 2) ++
          List.replicate (L - min (L - 2) (newpics ++ b).length) 0 ++
          ((pre ++ 92 :: b) ++ 0 :: pad).drop L := by
      rw [hrep, show L - 1 - 1 = L - 2 by omega, List.length_append, hlen,
        List.length_singleton, List.drop_append_eq_append_drop, List.drop_replicate,
        List.length_replicate]
      have e1 : min (L - 2) (newpics ++ b).length + 1 - L = 0 := by omega
      have e2 : L - (min (L - 2) (newpics ++ b).length + 1) =
          L - 1 - min (L - 2) (newpics ++ b).length := by omega
      rw [e1, e2, List.drop_zero]
      simp
    simp only [hn, snprintf, if_neg hn0, if_pos hfit, Option.some_bind]
    rw [hbuf, hfin]
    rfl

/-- The tests of lines 87 and 91 on a buffer that holds the string `v`: the
rewrite runs exactly when `v` passes the recognition test. -/
theorem update_db_picturefile_test (fields : List pxfield_t) (fi : Int)
    (v pad : List Nat) (len0 : Nat) (h0 : 0 ∉ v) :
    update_db_picturefile fields fi { val := some (v ++ 0 :: pad), len := len0 } =
      if eligible v then
        (idx fields fi).bind fun f =>
          (update_db_rewrite (v ++ 0 :: pad) f.px_flen).bind fun r =>
            some { value := { val := some r.1, len := r.2 }, updated := true }
      else some { value := { val := some (v ++ 0 :: pad), len := len0 }, updated := false } := by
  unfold update_db_picturefile
  simp only [cstr?_append_zero v pad h0, Option.bind_eq_bind, Option.some_bind]
  match v, h0 with
  | [], _ =>
    have : ¬ eligible [] := by decide
    simp [this, tolower]
  | [a], _ =>
    have : ¬ eligible [a] := by simp [eligible]
    simp [this]
  | a :: c :: rest, _ =>
    have he : eligible (a :: c :: rest) ↔ (tolower a = 122 ∧ c = 58) := by
      simp [eligible, tolower_eq_z]
    by_cases h1 : tolower a = 122
    · by_cases h2 : c = 58
      · have : eligible (a :: c :: rest) := he.2 ⟨h1, h2⟩
        simp only [this, if_true]
        simp [h1, h2]
      · have : ¬ eligible (a :: c :: rest) := fun e => h2 (he.1 e).2
        simp [this, h1, h2]
    · have : ¬ eligible (a :: c :: rest) := fun e => h1 (he.1 e).1
      simp [this, h1]

/-- Lines 87-105 on an eligible value `pre ++ '\\' :: b` whose basename `b`
has no backslash, for a field of `L >= 1` bytes that lies inside the buffer. -/
theorem update_db_picturefile_eq (fields : List pxfield_t) (fi : Int) (f : pxfield_t)
    (pre b pad : List Nat) (len0 : Nat)
    (hf : idx fields fi = some f) (he : eligible (pre ++ 92 :: b))
    (h0 : 0 ∉ pre ++ 92 :: b) (hb : 92 ∉ b) (h1 : 1 ≤ f.px_flen)
    (hL : f.px_flen ≤ ((pre ++ 92 :: b) ++ 0 :: pad).length) :
    update_db_picturefile fields fi { val := some ((pre ++ 92 :: b) ++ 0 :: pad), len := len0 } =
      some { value :=
               { val := some ((newpics ++ b).take (f.px_flen - 2) ++
                   List.replicate (f.px_flen - min (f.px_flen - 2) (newpics ++ b).length) 0 ++
                   ((pre ++ 92 :: b) ++ 0 :: pad).drop f.px_flen),
                 len := min (f.px_flen - 2) (newpics ++ b).length },
             updated := true } := by
  rw [update_db_picturefile_test fields fi _ pad len0 h0, if_pos he, hf, Option.some_bind,
    update_db_rewrite_eq pre b pad f.px_flen h0 hb h1 hL, Option.some_bind]

theorem rewritten_cstr (t rest : List Nat) (L : Nat) (ht : 0 ∉ t) (h1 : 1 ≤ L) :
    cstr (t.take (L - 2) ++ List.replicate (L - min (L - 2) t.length) 0 ++ rest) =
      t.take (L - 2) := by
  have e : L - min (L - 2) t.length = (L - 1 - min (L - 2) t.length) + 1 := by omega
  rw [e, List.replicate_succ, List.append_assoc, List.cons_append]
  exact cstr_append_zero _ _ (zero_not_mem_take t _ ht)

theorem rewritten_take (t rest : List Nat) (L : Nat) :
    (t.take (L - 2) ++ List.replicate (L - min (L - 2) t.length) 0 ++ rest).take L =
      t.take (L - 2) ++ List.replicate (L - min (L - 2) t.length) 0 := by
  apply List.take_left'
  simp only [List.length_append, List.length_take, List.length_replicate]
  omega

theorem rewritten_drop (t rest : List Nat) (L : Nat) :
    (t.take (L - 2) ++ List.replicate (L - min (L - 2) t.length) 0 ++ rest).drop L = rest := by
  apply List.drop_left'
  simp only [List.length_append, List.length_take, List.length_replicate]
  omega

theorem rewritten_zero (t rest : List Nat) (L i : Nat)
    (hi : min (L - 2) t.length ≤ i) (hiL : i < L) :
    (t.take (L - 2) ++ List.replicate (L - min (L - 2) t.length) 0 ++ rest)[i]? = some 0 := by
  have hlen : (t.take (L - 2)).length = min (L - 2) t.length := List.length_take _ _
  rw [List.append_assoc, List.getElem?_append_right (by omega), hlen,
    List.getElem?_append_left (by simp only [List.length_replicate]; omega),
    List.getElem?_replicate, if_pos (by omega)]

theorem rewritten_head (b rest : List Nat) (L : Nat) (h1 : 1 ≤ L) :
    ((newpics ++ b).take (L - 2) ++
        List.replicate (L - min (L - 2) (newpics ++ b).length) 0 ++ rest)[0]? = some 81 ∨
    ((newpics ++ b).take (L - 2) ++
        List.replicate (L - min (L - 2) (newpics ++ b).length) 0 ++ rest)[0]? = some 0 := by
  by_cases h : L - 2 = 0
  · right
    exact rewritten_zero _ rest L 0 (by omega) (by omega)
  · left
    obtain ⟨k, hk⟩ : ∃ k, L - 2 = k + 1 := ⟨L - 2 - 1, by omega⟩
    rw [hk, newpics_eq]
    simp

theorem take_min_length (t : List Nat) (k : Nat) : t.take (min t.length k) = t.take k := by
  rcases Nat.le_total t.length k with h | h
  · rw [Nat.min_eq_left h, List.take_of_length_le h, List.take_of_length_le (Nat.le_refl _)]
  · rw [Nat.min_eq_right h]

theorem eligible_head (v : List Nat) (he : eligible v) (pad : List Nat) :
    (v ++ 0 :: pad)[0]? = some 122 ∨ (v ++ 0 :: pad)[0]? = some 90 := by
  match v, he with
  | [], he => exact absurd he (by decide)
  | a :: rest, he =>
    have := he.1
    simpa using this

/-! ## The rewrite step: claims -/

/-- C1, as amended: for an eligible value `pre ++ '\\' :: b` whose basename `b`
has no backslash and a field length `L` with `len("Q:\\newpics\\" ++ b) + 2 <= L`,
the rewrite step stores exactly `"Q:\\newpics\\" ++ b`, sets the stored length to
the length of that string and persists the record. -/
theorem update_db_stores_new_path (fields : List pxfield_t) (fi : Int) (f : pxfield_t)
    (pre b pad : List Nat) (len0 : Nat)
    (hf : idx fields fi = some f) (he : eligible (pre ++ 92 :: b))
    (h0 : 0 ∉ pre ++ 92 :: b) (hb : 92 ∉ b)
    (hL : f.px_flen ≤ ((pre ++ 92 :: b) ++ 0 :: pad).length)
    (hfit : (newpics ++ b).length + 2 ≤ f.px_flen) :
    ∃ buf2, update_db_picturefile fields fi
        { val := some ((pre ++ 92 :: b) ++ 0 :: pad), len := len0 } =
        some { value := { val := some buf2, len := (newpics ++ b).length }, updated := true } ∧
      cstr buf2 = newpics ++ b := by
  have hb0 : 0 ∉ b := fun e => h0 (by simp [e])
  have ht := zero_not_mem_newpics_append b hb0
  have h1 : 1 ≤ f.px_flen := by omega
  have hk : (newpics ++ b).length ≤ f.px_flen - 2 := by omega
  refine ⟨(newpics ++ b).take (f.px_flen - 2) ++
    List.replicate (f.px_flen - min (f.px_flen - 2) (newpics ++ b).length) 0 ++
    ((pre ++ 92 :: b) ++ 0 :: pad).drop f.px_flen, ?_, ?_⟩
  · rw [update_db_picturefile_eq fields fi f pre b pad len0 hf he h0 hb h1 hL,
      Nat.min_eq_right hk]
  · rw [rewritten_cstr _ _ _ ht h1, List.take_of_length_le hk]

/-- Witness for C1 as amended: scenario A, `Z:\pics\john.jpg` in a field of
30 bytes becomes `Q:\newpics\john.jpg`. -/
theorem update_db_stores_new_path_witness :
    ∃ buf2, update_db_picturefile scenario_fields 1
        { val := some ((ascii "Z:\\pics" ++ 92 :: ascii "john.jpg") ++
            0 :: List.replicate 14 0), len := 16 } =
        some { value := { val := some buf2, len := (newpics ++ ascii "john.jpg").length },
               updated := true } ∧
      cstr buf2 = newpics ++ ascii "john.jpg" :=
  update_db_stores_new_path scenario_fields 1 { px_fname := ascii "picturefile", px_flen := 30 }
    (ascii "Z:\\pics") (ascii "john.jpg") (List.replicate 14 0) 16
    (by decide) (by decide) (by decide) (by decide) (by decide) (by decide)

/-- C1, counterexample: `Z:\a` in a field of 13 bytes.  The new value
`Q:\newpics\a` has 12 characters, so it and a terminator fit in 13 bytes, yet
the step stores `Q:\newpics\` with stored length 11. -/
theorem update_db_exact_fit_loses_last_byte :
    eligible (ascii "Z:\\a") ∧ 92 ∈ ascii "Z:\\a" ∧
    (ascii "Q:\\newpics\\a").length + 1 ≤ 13 ∧
    update_db_picturefile [{ px_fname := ascii "picturefile", px_flen := 13 }] 0
        { val := some (field_buffer (ascii "Z:\\a") 13), len := 4 } =
      some { value := { val := some (field_buffer (ascii "Q:\\newpics\\") 13), len := 11 },
             updated := true } ∧
    ascii "Q:\\newpics\\" ≠ ascii "Q:\\newpics\\a" := by
  decide

/-- C2, counterexample: `Z:\j.jpg` in a field of 10 bytes.  The new value
`Q:\newpics\j.jpg` has 16 characters and 16 + 1 > 10, yet the record is not
left unchanged: the step stores `Q:\newpi` and persists the record. -/
theorem update_db_overflow_not_rejected :
    eligible (ascii "Z:\\j.jpg") ∧ 92 ∈ ascii "Z:\\j.jpg" ∧
    (ascii "Q:\\newpics\\j.jpg").length + 1 > 10 ∧
    update_db_picturefile [{ px_fname := ascii "picturefile", px_flen := 10 }] 0
        { val := some (field_buffer (ascii "Z:\\j.jpg") 10), len := 8 } =
      some { value := { val := some (field_buffer (ascii "Q:\\newpi") 10), len := 8 },
             updated := true } ∧
    field_buffer (ascii "Q:\\newpi") 10 ≠ field_buffer (ascii "Z:\\j.jpg") 10 := by
  decide

/-- C3: for a field length `L >= 1` and an eligible value that contains a
backslash, after the rewrite step the first `L` bytes of the buffer are the new
value followed only by zero bytes: the new value has length `n < L`, the bytes
at positions `n .. L-1` are zero, and the bytes from position `L` on are the
ones that were there before. -/
theorem update_db_field_region_zero_filled (fields : List pxfield_t) (fi : Int)
    (f : pxfield_t) (pre b pad : List Nat) (len0 : Nat)
    (hf : idx fields fi = some f) (he : eligible (pre ++ 92 :: b))
    (h0 : 0 ∉ pre ++ 92 :: b) (hb : 92 ∉ b) (h1 : 1 ≤ f.px_flen)
    (hL : f.px_flen ≤ ((pre ++ 92 :: b) ++ 0 :: pad).length) :
    ∃ buf2 n, update_db_picturefile fields fi
        { val := some ((pre ++ 92 :: b) ++ 0 :: pad), len := len0 } =
        some { value := { val := some buf2, len := n }, updated := true } ∧
      n = (cstr buf2).length ∧ n < f.px_flen ∧
      buf2.take f.px_flen = cstr buf2 ++ List.replicate (f.px_flen - n) 0 ∧
      (∀ i, n ≤ i → i < f.px_flen → buf2[i]? = some 0) ∧
      buf2.drop f.px_flen = ((pre ++ 92 :: b) ++ 0 :: pad).drop f.px_flen ∧
      buf2.length = ((pre ++ 92 :: b) ++ 0 :: pad).length := by
  have hb0 : 0 ∉ b := fun e => h0 (by simp [e])
  have ht := zero_not_mem_newpics_append b hb0
  have hlen : ((newpics ++ b).take (f.px_flen - 2)).length =
      min (f.px_flen - 2) (newpics ++ b).length := List.length_take _ _
  refine ⟨_, _, update_db_picturefile_eq fields fi f pre b pad len0 hf he h0 hb h1 hL,
    ?_, ?_, ?_, ?_, ?_, ?_⟩
  · rw [rewritten_cstr _ _ _ ht h1, hlen]
  · omega
  · rw [rewritten_take, rewritten_cstr _ _ _ ht h1]
  · intro i hi hiL
    exact rewritten_zero _ _ _ i hi hiL
  · rw [rewritten_drop]
  · simp only [List.length_append, List.length_take, List.length_replicate,
      List.length_drop, List.length_cons] at hL ⊢
    omega

/-- Witness for C3: `Z:\pics\john.jpg` in a field of 30 bytes. -/
theorem update_db_field_region_zero_filled_witness :
    ∃ buf2 n, update_db_picturefile scenario_fields 1
        { val := some ((ascii "Z:\\pics" ++ 92 :: ascii "john.jpg") ++
            0 :: List.replicate 14 0), len := 16 } =
        some { value := { val := some buf2, len := n }, updated := true } ∧
      n = (cstr buf2).length ∧ n < 30 ∧
      buf2.take 30 = cstr buf2 ++ List.replicate (30 - n) 0 ∧
      (∀ i, n ≤ i → i < 30 → buf2[i]? = some 0) ∧
      buf2.drop 30 = ((ascii "Z:\\pics" ++ 92 :: ascii "john.jpg") ++
            0 :: List.replicate 14 0).drop 30 ∧
      buf2.length = ((ascii "Z:\\pics" ++ 92 :: ascii "john.jpg") ++
            0 :: List.replicate 14 0).length :=
  update_db_field_region_zero_filled scenario_fields 1
    { px_fname := ascii "picturefile", px_flen := 30 }
    (ascii "Z:\\pics") (ascii "john.jpg") (List.replicate 14 0) 16
    (by decide) (by decide) (by decide) (by decide) (by decide) (by decide)

/-- C10: for an eligible value with basename `b`, `t = "Q:\\newpics\\" ++ b` and
a field length `L >= 2`, the value the rewrite step stores is exactly the first
`min(len(t), L - 2)` bytes of `t` and the stored length is `min(len(t), L - 2)`;
whenever `len(t) > L - 2` the stored value is a proper truncation of `t` and the
record is persisted all the same, also when `len(t) = L - 1`. -/
theorem update_db_stores_truncated (fields : List pxfield_t) (fi : Int) (f : pxfield_t)
    (pre b pad : List Nat) (len0 : Nat)
    (hf : idx fields fi = some f) (he : eligible (pre ++ 92 :: b))
    (h0 : 0 ∉ pre ++ 92 :: b) (hb : 92 ∉ b) (h2 : 2 ≤ f.px_flen)
    (hL : f.px_flen ≤ ((pre ++ 92 :: b) ++ 0 :: pad).length) :
    ∃ buf2, update_db_picturefile fields fi
        { val := some ((pre ++ 92 :: b) ++ 0 :: pad), len := len0 } =
        some { value := { val := some buf2,
                          len := min (newpics ++ b).length (f.px_flen - 2) },
               updated := true } ∧
      cstr buf2 = (newpics ++ b).take (min (newpics ++ b).length (f.px_flen - 2)) ∧
      ((newpics ++ b).length > f.px_flen - 2 → cstr buf2 ≠ newpics ++ b) := by
  have hb0 : 0 ∉ b := fun e => h0 (by simp [e])
  have ht := zero_not_mem_newpics_append b hb0
  have h1 : 1 ≤ f.px_flen := by omega
  have hc := rewritten_cstr (newpics ++ b)
    (((pre ++ 92 :: b) ++ 0 :: pad).drop f.px_flen) f.px_flen ht h1
  refine ⟨(newpics ++ b).take (f.px_flen - 2) ++
    List.replicate (f.px_flen - min (f.px_flen - 2) (newpics ++ b).length) 0 ++
    ((pre ++ 92 :: b) ++ 0 :: pad).drop f.px_flen, ?_, ?_, ?_⟩
  · rw [update_db_picturefile_eq fields fi f pre b pad len0 hf he h0 hb h1 hL,
      Nat.min_comm]
  · rw [hc, take_min_length]
  · intro hgt e
    rw [hc] at e
    have := congrArg List.length e
    rw [List.length_take] at this
    omega

/-- Witness for C10: `Z:\a` in a field of 13 bytes, where `len(t) = L - 1`. -/
theorem update_db_stores_truncated_witness :
    ∃ buf2, update_db_picturefile [{ px_fname := ascii "picturefile", px_flen := 13 }] 0
        { val := some ((ascii "Z:" ++ 92 :: ascii "a") ++ 0 :: List.replicate 9 0),
          len := 4 } =
        some { value := { val := some buf2,
                          len := min (newpics ++ ascii "a").length (13 - 2) },
               updated := true } ∧
      cstr buf2 = (newpics ++ ascii "a").take (min (newpics ++ ascii "a").length (13 - 2)) ∧
      ((newpics ++ ascii "a").length > 13 - 2 → cstr buf2 ≠ newpics ++ ascii "a") :=
  update_db_stores_truncated [{ px_fname := ascii "picturefile", px_flen := 13 }] 0
    { px_fname := ascii "picturefile", px_flen := 13 }
    (ascii "Z:") (ascii "a") (List.replicate 9 0) 4
    (by decide) (by decide) (by decide) (by decide) (by decide) (by decide)

/-- Whatever the buffer and the field length, a defined result of lines 92-99
is a terminated buffer whose first byte is `Q` or zero. -/
theorem update_db_rewrite_result (p : List Nat) (L : Nat) (r : List Nat × Nat)
    (h : update_db_rewrite p L = some r) :
    0 ∈ r.1 ∧ (r.1[0]? = some 81 ∨ r.1[0]? = some 0) := by
  unfold update_db_rewrite at h
  simp only [Option.bind_eq_bind, Option.bind_eq_some, Option.pure_def, Option.some.injEq] at h
  obtain ⟨s, _, ptr, _, buf1, hb1, buf2, hb2, len, hlen, e⟩ := h
  subst e
  refine ⟨?_, ?_⟩
  · by_contra hc
    simp [strlen, cstr?, hc] at hlen
  · unfold memset at hb1
    split at hb1
    · simp only [Option.some.injEq] at hb1
      subst hb1
      unfold snprintf at hb2
      split at hb2
      · rename_i hn
        simp only [Option.some.injEq] at hb2
        subst hb2
        have hL1 : L = 1 := by
          unfold size_arg at hn
          split at hn <;> omega
        subst hL1
        right
        simp [List.replicate]
      · simp only at hb2
        split at hb2
        · simp only [Option.some.injEq] at hb2
          subst hb2
          by_cases hk : size_arg L - 1 = 0
          · right
            rw [hk]
            simp
          · left
            obtain ⟨k, hk2⟩ : ∃ k, size_arg L - 1 = k + 1 := ⟨size_arg L - 1 - 1, by omega⟩
            rw [hk2, newpics_eq]
            simp
        · cases hb2
    · cases hb1

/-- C5: the rewrite rule is idempotent.  Whenever the step is defined on a
value, applying it to the value it leaves behind changes nothing and does not
persist the record again; and a value produced by a rewrite never passes the
recognition test. -/
theorem update_db_picturefile_idempotent (fields : List pxfield_t) (fi : Int)
    (v : pxval_t) (out : Outcome) (h : update_db_picturefile fields fi v = some out) :
    update_db_picturefile fields fi out.value = some { value := out.value, updated := false } ∧
    (out.updated = true → ∀ buf2, out.value.val = some buf2 → ¬ eligible (cstr buf2)) := by
  have key : ∀ (p : List Nat) (L : Nat) (r : List Nat × Nat),
      update_db_rewrite p L = some r →
      update_db_picturefile fields fi { val := some r.1, len := r.2 } =
          some { value := { val := some r.1, len := r.2 }, updated := false } ∧
        ¬ eligible (cstr r.1) := by
    intro p L r hr
    obtain ⟨hz, hh⟩ := update_db_rewrite_result p L r hr
    have hc : cstr? r.1 = some (cstr r.1) := by simp [cstr?, hz]
    refine ⟨?_, ?_⟩
    · unfold update_db_picturefile
      simp only [hc, Option.bind_eq_bind, Option.some_bind]
      rcases hh with hh | hh <;> simp [hh, tolower]
    · intro he
      match hr1 : r.1, hh with
      | [], hh => simp at hh
      | a :: rest, hh =>
        simp only [List.getElem?_cons_zero, Option.some.injEq] at hh
        rw [hr1] at he
        rcases hh with hh | hh
        · subst hh
          have := he.1
          simp [cstr] at this
        · subst hh
          have := he.1
          simp [cstr] at this
  unfold update_db_picturefile at h
  split at h
  · rename_i hv
    simp only [Option.some.injEq] at h
    subst h
    simp only [update_db_picturefile, hv]
    simp
  · rename_i picturefile hv
    simp only [Option.bind_eq_bind, Option.bind_eq_some] at h
    obtain ⟨s, hs, c0, hc0, h⟩ := h
    have hskip : update_db_picturefile fields fi v = some { value := v, updated := false } →
        out = { value := v, updated := false } →
        update_db_picturefile fields fi out.value =
            some { value := out.value, updated := false } ∧
          (out.updated = true → ∀ buf2, out.value.val = some buf2 → ¬ eligible (cstr buf2)) := by
      intro h1 h2
      subst h2
      exact ⟨h1, fun hu => by cases hu⟩
    split at h
    · rename_i ht0
      simp only [Option.bind_eq_bind, Option.bind_eq_some] at h
      obtain ⟨c1, hc1, h⟩ := h
      split at h
      · rename_i ht1
        simp only [Option.bind_eq_bind, Option.bind_eq_some, Option.pure_def,
          Option.some.injEq] at h
        obtain ⟨f, _, r, hr, e⟩ := h
        subst e
        obtain ⟨k1, k2⟩ := key picturefile f.px_flen r hr
        refine ⟨k1, ?_⟩
        intro _ buf2 hb
        simp only [Option.some.injEq] at hb
        subst hb
        exact k2
      · rename_i ht1
        simp only [Option.pure_def, Option.some.injEq] at h
        apply hskip _ h.symm
        unfold update_db_picturefile
        simp [hv, hs, hc0, ht0, hc1, ht1]
    · rename_i ht0
      simp only [Option.pure_def, Option.some.injEq] at h
      apply hskip _ h.symm
      unfold update_db_picturefile
      simp [hv, hs, hc0, ht0]

/-- Witness for C5: `Z:\pics\john.jpg` in a field of 30 bytes; the step
applied to its own result `Q:\newpics\john.jpg` changes nothing. -/
theorem update_db_picturefile_idempotent_witness :
    update_db_picturefile scenario_fields 1
        { val := some (field_buffer (ascii "Q:\\newpics\\john.jpg") 30), len := 19 } =
      some { value := { val := some (field_buffer (ascii "Q:\\newpics\\john.jpg") 30),
                        len := 19 },
             updated := false } ∧
    (true = true → ∀ buf2, some (field_buffer (ascii "Q:\\newpics\\john.jpg") 30) = some buf2 →
      ¬ eligible (cstr buf2)) :=
  update_db_picturefile_idempotent scenario_fields 1
    { val := some (field_buffer (ascii "Z:\\pics\\john.jpg") 30), len := 16 }
    { value := { val := some (field_buffer (ascii "Q:\\newpics\\john.jpg") 30), len := 19 },
      updated := true }
    (by decide)

/-- C4, as amended: in a record whose path buffer holds a terminated string
`v` and the `L >= 1` bytes of the field, and whose `v` contains a backslash
whenever it passes the recognition test, `update_db` changes and persists the
path field if and only if the value is present, its first character is `z` or
`Z` and its second is `:`; an absent value and every value that fails the test
keep their bytes and stored length, and no update is issued for them. -/
theorem update_db_rewrites_iff_eligible (fields : List pxfield_t) (fi : Int) (f : pxfield_t)
    (v pad : List Nat) (len0 : Nat)
    (hf : idx fields fi = some f) (h0 : 0 ∉ v) (hs : eligible v → 92 ∈ v)
    (h1 : 1 ≤ f.px_flen) (hL : f.px_flen ≤ (v ++ 0 :: pad).length) :
    update_db_picturefile fields fi { val := none, len := len0 } =
      some { value := { val := none, len := len0 }, updated := false } ∧
    ∃ out, update_db_picturefile fields fi { val := some (v ++ 0 :: pad), len := len0 } =
        some out ∧
      (out.updated = true ↔ eligible v) ∧
      (eligible v → out.value.val ≠ some (v ++ 0 :: pad)) ∧
      (¬ eligible v → out.value = { val := some (v ++ 0 :: pad), len := len0 }) := by
  refine ⟨rfl, ?_⟩
  by_cases he : eligible v
  · obtain ⟨pre, b, hv, hb⟩ := exists_last_split v 92 (hs he)
    subst hv
    refine ⟨_, update_db_picturefile_eq fields fi f pre b pad len0 hf he h0 hb h1 hL,
      ?_, ?_, ?_⟩
    · simp [he]
    · intro _ e
      simp only [Option.some.injEq] at e
      have hh := rewritten_head b (((pre ++ 92 :: b) ++ 0 :: pad).drop f.px_flen) f.px_flen h1
      have hz := eligible_head _ he pad
      rw [e] at hh
      rcases hh with hh | hh <;> rcases hz with hz | hz <;> rw [hh] at hz <;> cases hz
    · intro hn
      exact absurd he hn
  · refine ⟨{ value := { val := some (v ++ 0 :: pad), len := len0 }, updated := false },
      ?_, ?_, ?_, ?_⟩
    · rw [update_db_picturefile_test fields fi v pad len0 h0, if_neg he]
    · simp [he]
    · intro h
      exact absurd h he
    · intro _
      rfl

/-- Witness for C4 as amended: scenario B, `A:\other\pic.jpg` in a field of
30 bytes is left alone. -/
theorem update_db_rewrites_iff_eligible_witness :
    update_db_picturefile scenario_fields 1 { val := none, len := 16 } =
      some { value := { val := none, len := 16 }, updated := false } ∧
    ∃ out, update_db_picturefile scenario_fields 1
        { val := some (ascii "A:\\other\\pic.jpg" ++ 0 :: List.replicate 14 0), len := 16 } =
        some out ∧
      (out.updated = true ↔ eligible (ascii "A:\\other\\pic.jpg")) ∧
      (eligible (ascii "A:\\other\\pic.jpg") →
        out.value.val ≠ some (ascii "A:\\other\\pic.jpg" ++ 0 :: List.replicate 14 0)) ∧
      (¬ eligible (ascii "A:\\other\\pic.jpg") →
        out.value =
          { val := some (ascii "A:\\other\\pic.jpg" ++ 0 :: List.replicate 14 0), len := 16 }) :=
  update_db_rewrites_iff_eligible scenario_fields 1
    { px_fname := ascii "picturefile", px_flen := 30 }
    (ascii "A:\\other\\pic.jpg") (List.replicate 14 0) 16
    (by decide) (by decide) (by decide) (by decide) (by decide)

/-- C4, counterexample: the value `Z:john.jpg` is present and passes the
recognition test, yet the step does not change and persist the field: with no
backslash in the value `strrchr` returns NULL and the step has no defined
result. -/
theorem update_db_eligible_not_rewritten :
    eligible (ascii "Z:john.jpg") ∧
    ¬ ∃ out, update_db_picturefile scenario_fields 1
        { val := some (field_buffer (ascii "Z:john.jpg") 30), len := 10 } = some out ∧
      out.updated = true := by
  refine ⟨by decide, ?_⟩
  rintro ⟨out, h, _⟩
  have : update_db_picturefile scenario_fields 1
      { val := some (field_buffer (ascii "Z:john.jpg") 30), len := 10 } = none := by decide
  rw [this] at h
  cases h

/-! ## The run as a whole -/

/-- When no field has the requested name, `find_field` returns without writing
its out-parameters. -/
theorem find_field_not_found (pxdoc : pxdoc_t) (fname : List Nat) (out : FieldOut)
    (h : ∀ f ∈ pxdoc.px_fields, ¬ eqIgnoreCase f.px_fname fname) :
    find_field pxdoc fname out = out :=
  find_field_loop_none fname pxdoc.px_fields 0 0 out h

/-- The body of the record loop in terms of the step on the path value: the
record is stored back, and `PX_update_record` is called, exactly when the step
reports an update. -/
theorem update_db_record_eq (fi_name fi_picturefile : Int) (r : Nat) (w : World)
    (pxval : List pxval_t) (vname vpic : pxval_t) (line88 : List Event) (o : Outcome)
    (hr : w.doc.records[r]? = some pxval) (hn : idx pxval fi_name = some vname)
    (hp : idx pxval fi_picturefile = some vpic)
    (h88 : update_db_line88 r vname vpic = some line88)
    (ho : update_db_picturefile w.doc.px_fields fi_picturefile vpic = some o) :
    update_db_record fi_name fi_picturefile r w =
      some (if o.updated = true then
        { doc := { w.doc with
                   records := w.doc.records.set r (pxval.set fi_picturefile.toNat o.value) },
          events := w.events ++ (Event.PX_retrieve_record r :: line88 ++
            [Event.PX_update_record r (pxval.set fi_picturefile.toNat o.value),
             Event.printf_updated (cstr (o.value.val.getD []))]) }
      else { doc := w.doc, events := w.events ++ (Event.PX_retrieve_record r :: line88) }) := by
  unfold update_db_record
  simp only [hr, hn, hp, h88, ho, Option.bind_eq_bind, Option.some_bind, Option.pure_def]
  split <;> rfl

/-- C2, as amended: for an eligible value with basename `b`, a field length
`L >= 1` and `len(new_value) + 1 > L`, where `new_value` is
`"Q:\\newpics\\" ++ b`, `update_db` does not leave the record unchanged and
records no rejection.  It clears the field and stores the first `L - 2` bytes
of `new_value` (none when `L = 1`): the `L` bytes of the field are that
truncated value followed only by zero bytes, the bytes after the field are as
before, and the buffer differs from the original.  It sets the stored length to
`L - 2` and persists the record with `PX_update_record`; all it prints for the
record is the `Rec` line and `*** UPDATED:` with the truncated value. -/
theorem update_db_overflow_truncates (fi_name fi : Int) (r : Nat) (w : World)
    (pxval : List pxval_t) (vname : pxval_t) (name : Option (List Nat)) (f : pxfield_t)
    (pre b pad : List Nat) (len0 : Nat)
    (hr : w.doc.records[r]? = some pxval)
    (hn : idx pxval fi_name = some vname) (hname : printf_arg vname.val = some name)
    (hp : idx pxval fi = some { val := some ((pre ++ 92 :: b) ++ 0 :: pad), len := len0 })
    (hf : idx w.doc.px_fields fi = some f)
    (he : eligible (pre ++ 92 :: b)) (h0 : 0 ∉ pre ++ 92 :: b) (hb : 92 ∉ b)
    (h1 : 1 ≤ f.px_flen) (hL : f.px_flen ≤ ((pre ++ 92 :: b) ++ 0 :: pad).length)
    (hover : (newpics ++ b).length + 1 > f.px_flen) :
    ∃ buf2,
      buf2.take f.px_flen =
        (newpics ++ b).take (f.px_flen - 2) ++
          List.replicate (f.px_flen - (f.px_flen - 2)) 0 ∧
      buf2.drop f.px_flen = ((pre ++ 92 :: b) ++ 0 :: pad).drop f.px_flen ∧
      cstr buf2 = (newpics ++ b).take (f.px_flen - 2) ∧
      (cstr buf2).length = f.px_flen - 2 ∧
      buf2 ≠ (pre ++ 92 :: b) ++ 0 :: pad ∧
      update_db_record fi_name fi r w =
        some { doc := { w.doc with
                        records := w.doc.records.set r
                          (pxval.set fi.toNat { val := some buf2, len := f.px_flen - 2 }) },
               events := w.events ++
                 [Event.PX_retrieve_record r,
                  Event.printf_rec r name (pre ++ 92 :: b),
                  Event.PX_update_record r
                    (pxval.set fi.toNat { val := some buf2, len := f.px_flen - 2 }),
                  Event.printf_updated ((newpics ++ b).take (f.px_flen - 2))] } := by
  have hb0 : 0 ∉ b := fun e => h0 (by simp [e])
  have ht := zero_not_mem_newpics_append b hb0
  have hk : f.px_flen - 2 ≤ (newpics ++ b).length := by omega
  have hmin : min (f.px_flen - 2) (newpics ++ b).length = f.px_flen - 2 := Nat.min_eq_left hk
  have hc := rewritten_cstr (newpics ++ b)
    (((pre ++ 92 :: b) ++ 0 :: pad).drop f.px_flen) f.px_flen ht h1
  have ho := update_db_picturefile_eq w.doc.px_fields fi f pre b pad len0 hf he h0 hb h1 hL
  have h88 : update_db_line88 r vname
      { val := some ((pre ++ 92 :: b) ++ 0 :: pad), len := len0 } =
      some [Event.printf_rec r name (pre ++ 92 :: b)] := by
    simp only [update_db_line88, hname, cstr?_append_zero _ pad h0, Option.bind_eq_bind,
      Option.some_bind, Option.pure_def]
  have hrec := update_db_record_eq fi_name fi r w pxval vname _ _ _ hr hn hp h88 ho
  rw [hmin] at hc ho hrec
  refine ⟨(newpics ++ b).take (f.px_flen - 2) ++
    List.replicate (f.px_flen - (f.px_flen - 2)) 0 ++
    ((pre ++ 92 :: b) ++ 0 :: pad).drop f.px_flen, ?_, ?_, hc, ?_, ?_, ?_⟩
  · have := rewritten_take (newpics ++ b)
      (((pre ++ 92 :: b) ++ 0 :: pad).drop f.px_flen) f.px_flen
    rw [hmin] at this
    exact this
  · have := rewritten_drop (newpics ++ b)
      (((pre ++ 92 :: b) ++ 0 :: pad).drop f.px_flen) f.px_flen
    rw [hmin] at this
    exact this
  · rw [hc, List.length_take, hmin]
  · intro e
    have hh := rewritten_head b (((pre ++ 92 :: b) ++ 0 :: pad).drop f.px_flen) f.px_flen h1
    have hz := eligible_head _ he pad
    rw [hmin, e] at hh
    rcases hh with hh | hh <;> rcases hz with hz | hz <;> rw [hh] at hz <;> cases hz
  · rw [hrec, if_pos rfl]
    simp only [Option.getD_some, hc, List.cons_append, List.nil_append]

/-- Witness for C2 as amended: record 0 of a table whose field `picturefile`
has 10 bytes and holds `Z:\j.jpg`. -/
theorem update_db_overflow_truncates_witness :
    ∃ buf2,
      buf2.take 10 =
        (newpics ++ ascii "j.jpg").take (10 - 2) ++ List.replicate (10 - (10 - 2)) 0 ∧
      buf2.drop 10 = ((ascii "Z:" ++ 92 :: ascii "j.jpg") ++ 0 :: [0, 0]).drop 10 ∧
      cstr buf2 = (newpics ++ ascii "j.jpg").take (10 - 2) ∧
      (cstr buf2).length = 10 - 2 ∧
      buf2 ≠ (ascii "Z:" ++ 92 :: ascii "j.jpg") ++ 0 :: [0, 0] ∧
      update_db_record 0 1 0 { doc := table_short_field, events := [] } =
        some { doc := { table_short_field with
                        records := table_short_field.records.set 0
                          ([{ val := some (field_buffer (ascii "John") 20), len := 4 },
                            { val := some (field_buffer (ascii "Z:\\j.jpg") 10), len := 8 }].set
                            (1 : Int).toNat { val := some buf2, len := 10 - 2 }) },
               events := [] ++
                 [Event.PX_retrieve_record 0,
                  Event.printf_rec 0 (some (ascii "John")) (ascii "Z:" ++ 92 :: ascii "j.jpg"),
                  Event.PX_update_record 0
                    ([{ val := some (field_buffer (ascii "John") 20), len := 4 },
                      { val := some (field_buffer (ascii "Z:\\j.jpg") 10), len := 8 }].set
                      (1 : Int).toNat { val := some buf2, len := 10 - 2 }),
                  Event.printf_updated ((newpics ++ ascii "j.jpg").take (10 - 2))] } :=
  update_db_overflow_truncates 0 1 0 { doc := table_short_field, events := [] }
    [{ val := some (field_buffer (ascii "John") 20), len := 4 },
     { val := some (field_buffer (ascii "Z:\\j.jpg") 10), len := 8 }]
    { val := some (field_buffer (ascii "John") 20), len := 4 } (some (ascii "John"))
    { px_fname := ascii "picturefile", px_flen := 10 }
    (ascii "Z:") (ascii "j.jpg") [0, 0] 8
    (by decide) (by decide) (by decide) (by decide) (by decide) (by decide) (by decide)
    (by decide) (by decide) (by decide) (by decide)

theorem update_db_record_events (fi_name fi_picturefile : Int) (r : Nat) (w w2 : World)
    (h : update_db_record fi_name fi_picturefile r w = some w2) :
    ∃ more, w2.events = w.events ++ more := by
  unfold update_db_record at h
  simp only [Option.bind_eq_bind, Option.bind_eq_some] at h
  obtain ⟨pxval, _, vname, _, vpic, _, line88, _, o, _, h⟩ := h
  split at h
  · simp only [Option.pure_def, Option.some.injEq] at h
    subst h
    exact ⟨_, rfl⟩
  · simp only [Option.pure_def, Option.some.injEq] at h
    subst h
    exact ⟨_, rfl⟩

theorem update_db_loop_events (fi_name fi_picturefile : Int) (n r : Nat) (w w2 : World)
    (h : update_db_loop fi_name fi_picturefile n r w = some w2) :
    ∃ more, w2.events = w.events ++ more := by
  induction n generalizing r w with
  | zero =>
    simp only [update_db_loop, Option.some.injEq] at h
    subst h
    exact ⟨[], by simp⟩
  | succ n ih =>
    unfold update_db_loop at h
    split at h
    · cases h
    · rename_i w1 h1
      obtain ⟨m1, e1⟩ := update_db_record_events _ _ _ _ _ h1
      obtain ⟨m2, e2⟩ := ih _ _ h
      exact ⟨m1 ++ m2, by rw [e2, e1, List.append_assoc]⟩

/-- For a table path that contains a `.`, the extension check of lines 36-41:
the run is refused with the message, before the table is opened, when the part
from the last `.` differs from `.DB` ignoring case, and otherwise the first
thing the run does is to open the table. -/
theorem update_db_extension_check (stem ext : List Nat) (table : pxdoc_t)
    (stat : List Nat → Bool) (f_name f_picturefile : FieldOut)
    (h0 : 0 ∉ stem ++ 46 :: ext) (hdot : 46 ∉ ext) :
    (¬ eqIgnoreCase (46 :: ext) (ascii ".DB") →
      update_db (stem ++ 46 :: ext) table stat f_name f_picturefile =
        { doc := table, events := [Event.stderr_not_recognized (stem ++ 46 :: ext)],
          exit := Exit.exit_1 }) ∧
    (eqIgnoreCase (46 :: ext) (ascii ".DB") →
      (update_db (stem ++ 46 :: ext) table stat f_name f_picturefile).events.head? =
        some (Event.PX_open_file (stem ++ 46 :: ext))) := by
  have hp : strrchr (cstr (stem ++ 46 :: ext)) 46 = some (46 :: ext) := by
    rw [cstr_of_not_mem _ h0, strrchr_last stem ext 46 hdot]
  refine ⟨?_, ?_⟩
  · intro hne
    have : strcasecmp (46 :: ext) (ascii ".DB") ≠ 0 := fun e =>
      hne ((strcasecmp_eq_zero_iff _ _).1 e)
    unfold update_db
    simp only [hp, this, ne_eq, not_false_eq_true, if_true]
  · intro he
    have : strcasecmp (46 :: ext) (ascii ".DB") = 0 := (strcasecmp_eq_zero_iff _ _).2 he
    unfold update_db
    simp only [hp, this, ne_eq, not_true_eq_false, if_false]
    split
    · rfl
    · split
      · rfl
      · rename_i w2 hw
        obtain ⟨more, e⟩ := update_db_loop_events _ _ _ _ _ _ hw
        rw [e]
        rfl

/-- C7, failing input: the table path `members` has no `.`, `strrchr` returns
NULL at line 36 and line 37 hands NULL to `strcasecmp`: the run is not refused
with a reported error, its behaviour is undefined. -/
theorem update_db_path_without_dot (table : pxdoc_t) (stat : List Nat → Bool)
    (f_name f_picturefile : FieldOut) :
    update_db (ascii "members") table stat f_name f_picturefile =
      { doc := table, events := [], exit := Exit.undefined } := by
  rfl

/-- C8, failing input: the schema has no field `picturefile`.  `find_field`
returns without writing its out-parameters, so the `assert` of line 66 tests
whatever the uninitialised local held; with a non-NULL content the run goes
on, retrieves record 0 and even rewrites and persists its `name` field. -/
theorem update_db_missing_field_not_refused :
    find_field table_no_picturefile (ascii "picturefile") stale_locals = stale_locals ∧
    update_db (ascii "members.DB") table_no_picturefile (fun _ => false)
        stale_locals stale_locals =
      { doc :=
          { px_fields := [{ px_fname := ascii "name", px_flen := 20 }],
            records :=
              [[{ val := some (field_buffer (ascii "Q:\\newpics\\bob") 20), len := 14 }]] },
        events :=
          [Event.PX_open_file (ascii "members.DB"),
           Event.stderr_opened (ascii "members.DB"),
           Event.PX_retrieve_record 0,
           Event.printf_rec 0 (some (ascii "Z:\\bob")) (ascii "Z:\\bob"),
           Event.PX_update_record 0
             [{ val := some (field_buffer (ascii "Q:\\newpics\\bob") 20), len := 14 }],
           Event.printf_updated (ascii "Q:\\newpics\\bob"),
           Event.PX_close],
        exit := Exit.returned } := by
  decide

/-- C9, failing input: the path `Z:john.jpg` of record 0 passes the
recognition test and has no backslash.  `strrchr` returns NULL at line 92 and
line 93 reads from `NULL + 1`: nothing is reported, the run does not go on to
record 1, its behaviour is undefined. -/
theorem update_db_no_backslash_undefined :
    eligible (ascii "Z:john.jpg") ∧
    92 ∉ ascii "Z:john.jpg" ∧
    update_db (ascii "members.DB") table_no_backslash (fun _ => false)
        stale_locals stale_locals =
      { doc := table_no_backslash,
        events := [Event.PX_open_file (ascii "members.DB"),
                   Event.stderr_opened (ascii "members.DB")],
        exit := Exit.undefined } := by
  decide

end PictureFiles
